import Mathlib

/-
  Verification development for the ClimateFlowSolver repository.

  Shallow embedding of the two core subsystems:
  * src/sparse_system/sparse_matrix.rs and sparse_system.rs
    (COO sparse matrix, serial/parallel product, Gauss-Seidel-named solver),
  * src/mesh/mesher.rs together with src/boundary.rs (Grid) and
    src/mesh/geometry.rs (naive_mesh hexahedral mesh builder).

  Modelling conventions:
  * f64 values are modelled as exact rationals (ℚ); the claims settled here
    are about control flow, indexing and summation order, not rounding.
  * Rust Vec indexing that can panic is modelled by Option results (none =
    panic) wherever a claim's input can reach the panicking path; in folds
    where every theorem carries explicit in-bounds hypotheses, reads out of
    bounds are modelled by List.getD with default 0 and writes by List.set
    (a no-op out of bounds), with the hypotheses ruling that situation out.
  * Result<T, String> is modelled as Option T; the error-message text is
    immaterial to every claim.
-/

set_option linter.unusedVariables false

namespace CFS

/-! ## Sparse matrix (src/sparse_system/sparse_matrix.rs) -/

/-- `type SparseEntry = (usize, usize, f64)` — (row, col, value). -/
abbrev SparseEntry := Nat × Nat × ℚ

/-- `pub struct SparseMatrix`. -/
structure SparseMatrix where
  entries : List SparseEntry
  n_rows : Nat
  n_cols : Nat
  row_indices : List (Option (Nat × Nat))
deriving DecidableEq, Repr

/-- `SparseMatrix::compute_size`: one pass taking `n_rows = max(n_rows, row+1)`
and `n_cols = max(n_cols, col+1)` over all entries (the two accumulators are
independent, so the single Rust loop equals two folds). -/
def compute_size (m : SparseMatrix) : SparseMatrix :=
  { m with
    n_rows := m.entries.foldl (fun acc e => max acc (e.1 + 1)) m.n_rows
    n_cols := m.entries.foldl (fun acc e => max acc (e.2.1 + 1)) m.n_cols }

/-- The comparator of `SparseMatrix::sort_entries`: by row, ties by col,
value ignored. -/
def entryLE (a b : SparseEntry) : Bool :=
  a.1 < b.1 || (a.1 = b.1 && a.2.1 ≤ b.2.1)

/-- `SparseMatrix::sort_entries`: stable sort by (row, col). -/
def sort_entries (m : SparseMatrix) : SparseMatrix :=
  { m with entries := m.entries.mergeSort entryLE }

/-- One step of the scan loop in `SparseMatrix::compute_row_indices`.
State is (current_row, start_index, row_indices); the loop body skips
index 0 and closes the block `[start_index, i-1]` when the row changes. -/
def rowScanStep (st : Nat × Nat × List (Option (Nat × Nat)))
    (p : Nat × SparseEntry) : Nat × Nat × List (Option (Nat × Nat)) :=
  if p.1 = 0 then st
  else if st.1 ≠ p.2.1 then
    (p.2.1, p.1, st.2.2.set st.1 (some (st.2.1, p.1 - 1)))
  else st

/-- `SparseMatrix::compute_row_indices`. On an entry-less matrix the Rust
code panics (`row_indices[current_row]` indexes an empty Vec when
`n_rows = 0`, and `entries.len() - 1` underflows), modelled as `none`. -/
def compute_row_indices (m : SparseMatrix) : Option SparseMatrix :=
  if m.entries.isEmpty then none
  else
    let st := m.entries.enum.foldl rowScanStep (0, 0, List.replicate m.n_rows none)
    some { m with row_indices := st.2.2.set st.1 (some (st.2.1, m.entries.length - 1)) }

/-- `SparseMatrix::preprocess`: compute_size, sort_entries, compute_row_indices. -/
def preprocess (m : SparseMatrix) : Option SparseMatrix :=
  compute_row_indices (sort_entries (compute_size m))

/-- `SparseMatrix::from_vecs` (izip! truncates at the shortest input, as does
`List.zip`). -/
def from_vecs (rows cols : List Nat) (values : List ℚ) : Option SparseMatrix :=
  preprocess { entries := rows.zip (cols.zip values), n_rows := 0, n_cols := 0,
               row_indices := [] }

/-- The accumulation loop of `SparseMatrix::dot`: `b[row] += x[col] * value`
entry by entry. Out-of-bounds row/col would panic in Rust, modelled `none`. -/
def dotLoop (x : List ℚ) : List SparseEntry → List ℚ → Option (List ℚ)
  | [], b => some b
  | e :: es, b =>
    if e.1 < b.length ∧ e.2.1 < x.length then
      dotLoop x es (b.set e.1 (b.getD e.1 0 + x.getD e.2.1 0 * e.2.2))
    else none

/-- `SparseMatrix::dot`. Returns `Err` (here `none`) on a dimension
mismatch, else accumulates over entries in order into `vec![0.0; n_rows]`. -/
def dot (m : SparseMatrix) (x : List ℚ) : Option (List ℚ) :=
  if m.n_cols ≠ x.length then none
  else dotLoop x m.entries (List.replicate m.n_rows 0)

/-- Per-row summation in `SparseMatrix::dot_par`:
`(a..=b).map(|i| entries[i].2 * x[entries[i].1]).sum()`, left fold from 0. -/
def row_sum (entries : List SparseEntry) (x : List ℚ) (a b : Nat) : Option ℚ :=
  (List.range' a (b + 1 - a)).foldlM
    (fun acc i =>
      match entries.get? i with
      | some e => (x.get? e.2.1).map (fun xv => acc + e.2.2 * xv)
      | none => none)
    0

/-- `SparseMatrix::dot_par`: one output slot per element of `row_indices`;
an empty row yields 0.0. -/
def dot_par (m : SparseMatrix) (x : List ℚ) : Option (List ℚ) :=
  if m.n_cols ≠ x.length then none
  else m.row_indices.mapM (fun mr =>
    match mr with
    | some (a, b) => row_sum m.entries x a b
    | none => some (0 : ℚ))

/-- `SparseMatrix::diagonal_entries`: entries with row == col. -/
def diagonal_entries (m : SparseMatrix) : List SparseEntry :=
  m.entries.filter (fun e => decide (e.1 = e.2.1))

/-- `SparseMatrix::diagonal_values`. -/
def diagonal_values (m : SparseMatrix) : List ℚ :=
  (m.entries.filter (fun e => decide (e.1 = e.2.1))).map (fun e => e.2.2)

/-- `SparseMatrix::off_diagonal_entries`: entries with row != col. -/
def off_diagonal_entries (m : SparseMatrix) : List SparseEntry :=
  m.entries.filter (fun e => decide (¬ e.1 = e.2.1))

/-! ## Solver (src/sparse_system/sparse_system.rs)

A `SparseSystem` is just a matrix together with the right-hand side
`column`; here both are passed explicitly. -/

/-- `pub struct SolverResult`. `Duration` carries no claim-relevant
information, so `elapsed_time` is modelled as `Option Unit`. -/
structure SolverResult where
  solution : Option (List ℚ)
  converged : Bool
  diagonal_dominance : Option Bool
  iters : Nat
  tol : ℚ
  max_iters_reached : Bool
  error : Option ℚ
  message : String
  elapsed_time : Option Unit
deriving DecidableEq, Repr

/-- `SparseSystem::error_sq`: `‖Ax − b‖²` via `dot` (whose `.unwrap()`
panics — `none` here — if the dimensions mismatch), then a left-fold sum of
`(axi - bi)^2` over `zip` (which truncates at the shorter list, as in Rust). -/
def error_sq (m : SparseMatrix) (column x : List ℚ) : Option ℚ :=
  (dot m x).map (fun ax => (ax.zip column).foldl (fun acc p => acc + (p.1 - p.2) ^ 2) 0)

/-- `SparseSystem::is_gauss_seidel_convergent`: build a per-row array of
absolute diagonal values (overwriting writes) and a per-row array of summed
absolute off-diagonal values, then check `d >= od` pointwise over their zip.
Rust would panic if an entry row were ≥ n_rows; theorems about this
definition carry that bound as a hypothesis. -/
def is_gauss_seidel_convergent (m : SparseMatrix) : Bool :=
  let diagonal := (diagonal_entries m).foldl
    (fun d e => d.set e.1 |e.2.2|) (List.replicate m.n_rows 0)
  let off_diagonal := (off_diagonal_entries m).foldl
    (fun d e => d.set e.1 (d.getD e.1 0 + |e.2.2|)) (List.replicate m.n_rows 0)
  (diagonal.zip off_diagonal).all (fun p => decide (p.2 ≤ p.1))

/-- One solver sweep (the body of the `for iter` loop in
`SparseSystem::gauss_seidel_solve`): `sum_rows[row] += value * x[col]` over
the off-diagonal entries, then `x[i] = (column[i] - sum_rows[i]) / diagonal[i]`
for every `i < x.len()`, every read taken from the pre-sweep `x`.
`diagonal` is the list of diagonal values in entry order. -/
def sweepUpdate (m : SparseMatrix) (column x : List ℚ) : List ℚ :=
  let sum_rows := (off_diagonal_entries m).foldl
    (fun s e => s.set e.1 (s.getD e.1 0 + e.2.2 * x.getD e.2.1 0))
    (List.replicate m.n_rows 0)
  let diagonal := diagonal_values m
  (List.range x.length).map (fun i =>
    (column.getD i 0 - sum_rows.getD i 0) / diagonal.getD i 0)

/-- The iteration loop of `gauss_seidel_solve`, recursing on the remaining
iteration budget `fuel` and carrying the finished-sweep count `iter`
(`fuel + iter = max_iters` at every call). The terminal case is the
fall-through block after the `for` loop. -/
def solveLoop (m : SparseMatrix) (column : List ℚ) (tol : ℚ) (max_iters : Nat) :
    Nat → Nat → List ℚ → Option SolverResult
  | 0, _iter, x =>
    (error_sq m column x).map (fun e =>
      { solution := some x, converged := true, diagonal_dominance := some true,
        iters := max_iters, tol := tol, max_iters_reached := true, error := some e,
        message := "Converged in " ++ toString max_iters ++
          " iterations (max iterations reached)",
        elapsed_time := some () })
  | fuel+1, iter, x =>
    let x2 := sweepUpdate m column x
    (error_sq m column x2).bind (fun e =>
      if e < tol then
        some { solution := some x2, converged := true, diagonal_dominance := some true,
               iters := iter + 1, tol := tol, max_iters_reached := false,
               error := some e,
               message := "Converged in " ++ toString (iter + 1) ++ " iterations",
               elapsed_time := some () }
      else solveLoop m column tol max_iters fuel (iter + 1) x2)

/-- `SparseSystem::gauss_seidel_solve`: dimension check on the initial
guess, diagonal-dominance precheck, then the sweep loop. The Rust
dimension-mismatch message interpolates the sizes; the text is immaterial
to every claim and is abbreviated here. -/
def gauss_seidel_solve (m : SparseMatrix) (column x0 : List ℚ) (tol : ℚ)
    (max_iters : Nat) : Option SolverResult :=
  if x0.length ≠ m.n_rows then
    some { solution := none, converged := false, diagonal_dominance := none,
           iters := 0, tol := tol, max_iters_reached := false, error := none,
           message := "Wrong dimensions", elapsed_time := none }
  else if ¬ is_gauss_seidel_convergent m then
    some { solution := none, converged := false, diagonal_dominance := some false,
           iters := 0, tol := tol, max_iters_reached := false, error := none,
           message := "The coefficients matrix is not diagonally dominant",
           elapsed_time := none }
  else
    solveLoop m column tol max_iters max_iters 0 x0

/-! Pure companions of the solver's partial operations, used to state
theorems: under the in-bounds hypotheses the Option-valued code equals
`some` of these. -/

/-- The value computed by `dot` when no error occurs. -/
def dotVal (m : SparseMatrix) (x : List ℚ) : List ℚ :=
  m.entries.foldl (fun b e => b.set e.1 (b.getD e.1 0 + x.getD e.2.1 0 * e.2.2))
    (List.replicate m.n_rows 0)

/-- The value computed by `error_sq` when no error occurs. -/
def errVal (m : SparseMatrix) (column x : List ℚ) : ℚ :=
  ((dotVal m x).zip column).foldl (fun acc p => acc + (p.1 - p.2) ^ 2) 0

/-- `sweepIter m column x0 k` is the iterate after `k` sweeps from `x0`. -/
def sweepIter (m : SparseMatrix) (column x0 : List ℚ) : Nat → List ℚ
  | 0 => x0
  | k+1 => sweepUpdate m column (sweepIter m column x0 k)

/-- Spec-side absolute diagonal of row `r`: the sum of `|value|` over the
diagonal entries of row `r` (equal to the single `|a_rr|` when the row has
exactly one diagonal entry, and 0 when it has none). -/
def diagAbs (m : SparseMatrix) (r : Nat) : ℚ :=
  ((m.entries.filter (fun e => decide (e.1 = r ∧ e.1 = e.2.1))).map
    (fun e => |e.2.2|)).sum

/-- Spec-side sum of absolute off-diagonal values of row `r`. -/
def offAbsSum (m : SparseMatrix) (r : Nat) : ℚ :=
  ((m.entries.filter (fun e => decide (e.1 = r ∧ ¬ e.1 = e.2.1))).map
    (fun e => |e.2.2|)).sum

/-- Spec-side row sum of `value * x[col]` over the off-diagonal entries of
row `i` — the `Σ_{j≠i} a_ij · x_j` of the Jacobi update (duplicated
positions both contribute, as in the code). -/
def offRowSum (m : SparseMatrix) (x : List ℚ) (i : Nat) : ℚ :=
  ((m.entries.filter (fun e => decide (e.1 = i ∧ ¬ e.1 = e.2.1))).map
    (fun e => e.2.2 * x.getD e.2.1 0)).sum

/-! ## Geometry (src/mesh/geometry.rs)

The `area` fields of Triangle and Quad and `Vector::mag` take square roots
(irrational over ℚ) and are used by no claim; they are the only fields
omitted from the embedding. -/

/-- `pub struct Vector { x, y, z : f64 }`. -/
structure Vector where
  x : ℚ
  y : ℚ
  z : ℚ
deriving DecidableEq, Repr

/-- `Vector::add`. -/
def Vector.add (v w : Vector) : Vector := ⟨v.x + w.x, v.y + w.y, v.z + w.z⟩

/-- `Vector::sub`. -/
def Vector.sub (v w : Vector) : Vector := ⟨v.x - w.x, v.y - w.y, v.z - w.z⟩

/-- `Vector::cross`. -/
def Vector.cross (v w : Vector) : Vector :=
  ⟨v.y * w.z - v.z * w.y, v.z * w.x - v.x * w.z, v.x * w.y - v.y * w.x⟩

/-- `Vector::div`. -/
def Vector.div (v : Vector) (d : ℚ) : Vector := ⟨v.x / d, v.y / d, v.z / d⟩

/-- `geometry::average_points`: fold of `add` from the origin, divided by
the point count (origin for an empty slice). -/
def average_points (points : List Vector) : Vector :=
  if points.isEmpty then ⟨0, 0, 0⟩
  else (points.foldl Vector.add ⟨0, 0, 0⟩).div (points.length : ℚ)

/-- `pub struct Triangle` (area omitted, see above). -/
structure Triangle where
  normal : Vector
  vertices : List Vector
  x : ℚ
  y : ℚ
  z : ℚ
deriving DecidableEq, Repr

/-- `Triangle::new`. -/
def Triangle.new (v1 v2 v3 : Vector) : Triangle :=
  let u := v2.sub v1
  let v := v3.sub v1
  let c := ((v1.add v2).add v3).div 3
  { normal := u.cross v, vertices := [v1, v2, v3], x := c.x, y := c.y, z := c.z }

/-- `pub struct Quad` (area omitted, see above). -/
structure Quad where
  normal : Vector
  vertices : List Vector
  x : ℚ
  y : ℚ
  z : ℚ
deriving DecidableEq, Repr

/-- `Quad::new` (normal is `u × v` from the first three vertices). -/
def Quad.new (v1 v2 v3 v4 : Vector) : Quad :=
  let u := v2.sub v1
  let v := v3.sub v1
  let c := (((v1.add v2).add v3).add v4).div 4
  { normal := u.cross v, vertices := [v1, v2, v3, v4], x := c.x, y := c.y, z := c.z }

/-! ## Mesh data model (src/mesh/mesher.rs) -/

/-- `pub enum WallKind`. -/
inductive WallKind
  | Terrain
  | Sky
  | Inlet
  | Interior
deriving DecidableEq, Repr

/-- `pub enum Poly`. -/
inductive Poly
  | Triangle (t : CFS.Triangle)
  | Quad (q : CFS.Quad)
deriving DecidableEq, Repr

/-- `pub struct Physics`. -/
structure Physics where
  velocity : Vector
  pressure : ℚ
  temperature : ℚ
  density : ℚ
  energy : ℚ
deriving DecidableEq, Repr

/-- `Physics::new`: all zero. -/
def Physics.new : Physics :=
  { velocity := ⟨0, 0, 0⟩, pressure := 0, temperature := 0, density := 0, energy := 0 }

/-- `pub struct Wall`; `cells_id: [Option<usize>; 2]` as a pair. -/
structure Wall where
  poly : Poly
  kind : WallKind
  cells_id : Option Nat × Option Nat
  center : Vector
  physics : Physics
deriving DecidableEq, Repr

/-- The four-point branch of `Wall::new` (every call in `naive_mesh` passes
exactly four points, so the triangle and unreachable branches are dead
there): a Quad polygon, center = average of the points. -/
def Wall.new4 (v1 v2 v3 v4 : Vector) (kind : WallKind)
    (cells_id : Option Nat × Option Nat) : Wall :=
  { poly := Poly.Quad (Quad.new v1 v2 v3 v4), kind := kind, cells_id := cells_id,
    center := average_points [v1, v2, v3, v4], physics := Physics.new }

/-- `pub struct Cell`. -/
structure Cell where
  id : Nat
  vertices : List Vector
  walls : List Wall
  center : Vector
  neighbours : List Nat
  physics : Physics
  ground_height : ℚ
  volume : ℚ
deriving DecidableEq, Repr

/-- `pub struct Mesh`. -/
structure Mesh where
  cells : List Cell
deriving DecidableEq, Repr

/-! ## Elevation grid (src/boundary.rs) -/

/-- `pub struct Grid`. `Array2<f64>` is modelled as a total function; only
indices below `nx`/`ny` are ever read by the mesher. -/
structure Grid where
  elevations : Nat → Nat → ℚ
  x_min : ℚ
  y_min : ℚ
  x_max : ℚ
  y_max : ℚ
  x_res : ℚ
  y_res : ℚ
  z_min : ℚ
  z_max : ℚ
  nx : Nat
  ny : Nat

/-- `Grid::x`. -/
def Grid.x (g : Grid) (col : Nat) : ℚ := g.x_min + g.x_res * (col : ℚ)

/-- `Grid::y`. -/
def Grid.y (g : Grid) (row : Nat) : ℚ := g.y_min + g.y_res * (row : ℚ)

/-- `Grid::z`. -/
def Grid.z (g : Grid) (col row : Nat) : ℚ := g.elevations col row

/-- `Grid::xyz`. -/
def Grid.xyz (g : Grid) (col row : Nat) : Vector :=
  ⟨g.x col, g.y row, g.z col row⟩

/-! ## Mesh builder (Mesh::naive_mesh, src/mesh/mesher.rs)

`naive_mesh` first REVERSES the input level list (`zs.into_iter().rev()`,
under the comment "Assume zs are sorted"); `zsr` below always denotes that
reversed list. Per column (i,j) with i < nx-1, j < ny-1 it computes
`min_height` (minimum of the four corner elevations) and

  z_count = 2 + zs.iter().take_while(|z| z >= min_height)
              .enumerate().map(|(i,_)| i).last().unwrap()

which equals t+1 for t = length of the take_while run. The `.unwrap()`
panics when t = 0 (no level reaches min_height), and the cell loop
`for k in 0..z_count-1` reads `zs[k+1]` up to `zs[t]`, which panics
(index out of bounds) when t = zs.len(). Both panics are modelled by
`naive_mesh` returning `none`. -/

/-- Minimum of the four corner elevations,
`[z(i,j), z(i+1,j), z(i,j+1), z(i+1,j+1)].reduce(f64::min)`. -/
def minHeight (terrain : Grid) (i j : Nat) : ℚ :=
  min (min (min (terrain.z i j) (terrain.z (i+1) j)) (terrain.z i (j+1)))
    (terrain.z (i+1) (j+1))

/-- Average of the four corner elevations. -/
def avgHeight (terrain : Grid) (i j : Nat) : ℚ :=
  (terrain.z i j + terrain.z (i+1) j + terrain.z i (j+1) + terrain.z (i+1) (j+1)) / 4

/-- `t`: how many leading levels of the reversed list `zsr` are ≥ the
column's min corner height (`take_while(|&&z| z >= min_height)`). -/
def takenCount (terrain : Grid) (zsr : List ℚ) (i j : Nat) : Nat :=
  (zsr.takeWhile (fun z => decide (minHeight terrain i j ≤ z))).length

/-- The value stored in `z_count[(i, j)]` for a processed column when the
computation does not panic: `2 + (t - 1) = t + 1`. -/
def z_count (terrain : Grid) (zsr : List ℚ) (i j : Nat) : Nat :=
  takenCount terrain zsr i j + 1

/-- A processed column avoids both panics iff `t ≠ 0` (else the
`.unwrap()` of the empty take_while panics) and `t ≠ zs.len()` (else the
cell loop reads `zs[t]` out of bounds). -/
def colOk (terrain : Grid) (zsr : List ℚ) (i j : Nat) : Bool :=
  takenCount terrain zsr i j ≠ 0 && takenCount terrain zsr i j ≠ zsr.length

/-- All processed columns (i < nx-1, j < ny-1) avoid the panics. -/
def colsOk (terrain : Grid) (zsr : List ℚ) : Bool :=
  (List.range (terrain.nx - 1)).all (fun i =>
    (List.range (terrain.ny - 1)).all (fun j => colOk terrain zsr i j))

/-- The cell built for layer `k` of column (i,j): vertices at the corner
columns' (x,y) sampled at levels `z1 = zsr[k]` (upper) and `z2 = zsr[k+1]`
(lower), provisional id `(nx*ny)*k + ny*i + j`, walls and neighbours still
empty, volume `(v1.x-v0.x)*(v4.y-v0.y)*(v3.z-v0.z)`. -/
def mkCell (terrain : Grid) (zsr : List ℚ) (i j k : Nat) : Cell :=
  let pa := terrain.xyz i j
  let pb := terrain.xyz (i+1) j
  let pc := terrain.xyz i (j+1)
  let pd := terrain.xyz (i+1) (j+1)
  let z1 := zsr.getD k 0
  let z2 := zsr.getD (k+1) 0
  let v0 : Vector := ⟨pa.x, pa.y, z2⟩
  let v1 : Vector := ⟨pb.x, pb.y, z2⟩
  let v2 : Vector := ⟨pb.x, pb.y, z1⟩
  let v3 : Vector := ⟨pa.x, pa.y, z1⟩
  let v4 : Vector := ⟨pc.x, pc.y, z2⟩
  let v5 : Vector := ⟨pd.x, pd.y, z2⟩
  let v6 : Vector := ⟨pd.x, pd.y, z1⟩
  let v7 : Vector := ⟨pc.x, pc.y, z1⟩
  let vertices := [v0, v1, v2, v3, v4, v5, v6, v7]
  { id := terrain.nx * terrain.ny * k + terrain.ny * i + j
    vertices := vertices
    walls := []
    center := average_points vertices
    neighbours := []
    physics := Physics.new
    ground_height := avgHeight terrain i j
    volume := (v1.x - v0.x) * (v4.y - v0.y) * (v3.z - v0.z) }

/-- The content of `cells[(i, j, k)]` after the cell-creation loops:
populated exactly for processed columns at layers `k < z_count - 1`. -/
def cellAt (terrain : Grid) (zsr : List ℚ) (i j k : Nat) : Option Cell :=
  if i < terrain.nx - 1 ∧ j < terrain.ny - 1 ∧ k + 1 < z_count terrain zsr i j then
    some (mkCell terrain zsr i j k)
  else none

/-- The six walls pushed for the cell at (i,j,k), in push order
[upper, south, west, lower, north, east], with the source's boundary
conditions verbatim: Sky iff k = 0; lower Terrain iff k = z_count-1 (note:
cells exist only for k < z_count-1, so this branch is dead and the
bottommost cell's lower wall is Interior towards the nonexistent layer
k+1); lateral Inlet iff j = 0 / i = 0 / j = ny-1 / i = nx-1 (the last two
are dead: processed columns have i < nx-1 and j < ny-1). -/
def cellWalls (terrain : Grid) (zsr : List ℚ) (cell : Cell) (i j k : Nat) :
    List Wall :=
  let nx := terrain.nx
  let ny := terrain.ny
  let zc := z_count terrain zsr i j
  let v0 := cell.vertices.getD 0 ⟨0, 0, 0⟩
  let v1 := cell.vertices.getD 1 ⟨0, 0, 0⟩
  let v2 := cell.vertices.getD 2 ⟨0, 0, 0⟩
  let v3 := cell.vertices.getD 3 ⟨0, 0, 0⟩
  let v4 := cell.vertices.getD 4 ⟨0, 0, 0⟩
  let v5 := cell.vertices.getD 5 ⟨0, 0, 0⟩
  let v6 := cell.vertices.getD 6 ⟨0, 0, 0⟩
  let v7 := cell.vertices.getD 7 ⟨0, 0, 0⟩
  let upper :=
    if k = 0 then Wall.new4 v3 v7 v6 v2 WallKind.Sky (some cell.id, none)
    else Wall.new4 v3 v7 v6 v2 WallKind.Interior
      (some cell.id, some (nx * ny * (k-1) + ny * i + j))
  let south :=
    if j = 0 then Wall.new4 v3 v2 v1 v0 WallKind.Inlet (some cell.id, none)
    else Wall.new4 v3 v2 v1 v0 WallKind.Interior
      (some cell.id, some (nx * ny * k + ny * i + (j-1)))
  let west :=
    if i = 0 then Wall.new4 v0 v4 v7 v3 WallKind.Inlet (some cell.id, none)
    else Wall.new4 v0 v4 v7 v3 WallKind.Interior
      (some cell.id, some (nx * ny * k + ny * (i-1) + j))
  let lower :=
    if k = zc - 1 then Wall.new4 v0 v1 v5 v4 WallKind.Terrain (some cell.id, none)
    else Wall.new4 v0 v1 v5 v4 WallKind.Interior
      (some cell.id, some (nx * ny * (k+1) + ny * i + j))
  let north :=
    if j = ny - 1 then Wall.new4 v4 v5 v6 v7 WallKind.Inlet (some cell.id, none)
    else Wall.new4 v4 v5 v6 v7 WallKind.Interior
      (some cell.id, some (nx * ny * k + ny * i + (j+1)))
  let east :=
    if i = nx - 1 then Wall.new4 v1 v2 v6 v5 WallKind.Inlet (some cell.id, none)
    else Wall.new4 v1 v2 v6 v5 WallKind.Interior
      (some cell.id, some (nx * ny * k + ny * (i+1) + j))
  [upper, south, west, lower, north, east]

/-- `cells[(i, j, k)]` after the wall-creation loops. -/
def cellAtWalled (terrain : Grid) (zsr : List ℚ) (i j k : Nat) : Option Cell :=
  (cellAt terrain zsr i j k).map
    (fun c => { c with walls := cellWalls terrain zsr c i j k })

/-- The provisional ids of the populated cells in the order the
compaction loop visits them (i ascending, then j, then k — the same
i, j, k loop bounds as in the source). `new_idx[id]` is the position of
`id` in this list. -/
def prov_ids (terrain : Grid) (zsr : List ℚ) : List Nat :=
  (List.range (terrain.nx - 1)).flatMap (fun i =>
    (List.range (terrain.ny - 1)).flatMap (fun j =>
      (List.range (z_count terrain zsr i j)).filterMap (fun k =>
        (cellAt terrain zsr i j k).map (fun c => c.id))))

/-- The `new_idx` remap: position of `pid` in the enumeration, and 0 for a
slot never assigned (the Rust Vec is zero-initialised). -/
def new_idx (ids : List Nat) (pid : Nat) : Nat :=
  let p := ids.indexOf pid
  if p = ids.length then 0 else p

/-- `Mesh::naive_mesh`. `none` models a panic in the per-column z_count /
cell loops. On success, cells are collected in Array3 (i,j,k) row-major
order with `filter_map`, after the reindex pass.

IMPORTANT faithfulness note on the reindex pass: the source iterates
`for wall in cell.walls.clone().iter_mut()` — it mutates a CLONE of the
wall vector and discards it, so the walls' `cells_id` are NEVER rewritten
(they keep provisional ids); only `cell.id` is remapped. The model
reproduces exactly that. -/
def naive_mesh (terrain : Grid) (zs : List ℚ) : Option Mesh :=
  let zsr := zs.reverse
  if colsOk terrain zsr then
    let ids := prov_ids terrain zsr
    some { cells :=
      (List.range terrain.nx).flatMap (fun i =>
        (List.range terrain.ny).flatMap (fun j =>
          (List.range zs.length).filterMap (fun k =>
            (cellAtWalled terrain zsr i j k).map
              (fun c => { c with id := new_idx ids c.id })))) }
  else none

/-! ## Concrete fixtures used to instantiate the theorems -/

/-- A one-entry matrix whose single entry sits in row 1 (row 0 empty),
before preprocessing. -/
def mFix1 : SparseMatrix :=
  { entries := [(1, 0, (1 : ℚ))], n_rows := 0, n_cols := 0, row_indices := [] }

/-- The spec's concrete example matrix (rows [0,1,2,2], cols [0,1,2,1],
values [1,3,5,7]) in its preprocessed form: entries sorted by (row, col),
sizes computed, row index built. -/
def mFix2 : SparseMatrix :=
  { entries := [(0, 0, (1 : ℚ)), (1, 1, 3), (2, 1, 7), (2, 2, 5)],
    n_rows := 3, n_cols := 3,
    row_indices := [some (0, 0), some (1, 1), some (2, 3)] }

/-- The 2×2 identity matrix in preprocessed form (diagonally dominant,
one diagonal entry per row, no off-diagonal entries). -/
def mFixId : SparseMatrix :=
  { entries := [(0, 0, (1 : ℚ)), (1, 1, 1)], n_rows := 2, n_cols := 2,
    row_indices := [some (0, 0), some (1, 1)] }

/-- A 2×2-sample flat elevation grid (one horizontal column of cells) at
constant height `h`, with unit resolution and origin 0. -/
def flatGrid (h : ℚ) : Grid :=
  { elevations := fun _ _ => h, x_min := 0, y_min := 0, x_max := 1, y_max := 1,
    x_res := 1, y_res := 1, z_min := h, z_max := h, nx := 2, ny := 2 }

/-! # Theorems

## General helper lemmas about the fold/scan patterns of the code -/

/-- A fold of `set` steps never changes the length of the array. -/
theorem length_foldl_set {α : Type} (r : α → Nat) (v : List ℚ → α → ℚ) :
    ∀ (l : List α) (s : List ℚ),
      (l.foldl (fun acc e => acc.set (r e) (v acc e)) s).length = s.length := by
  intro l
  induction l with
  | nil => intro s; rfl
  | cons e l ih =>
    intro s
    rw [List.foldl_cons, ih, List.length_set]

/-- Scatter-add fold: accumulating `f e` into slot `r e` for each element in
turn leaves slot `i` holding its initial value plus the sum of `f` over the
elements with `r e = i` (out-of-range targets write nowhere). -/
theorem getD_foldl_set_add {α : Type} (r : α → Nat) (f : α → ℚ) :
    ∀ (l : List α) (s : List ℚ) (i : Nat), i < s.length →
      ((l.foldl (fun acc e => acc.set (r e) (acc.getD (r e) 0 + f e)) s).getD i 0)
        = s.getD i 0 + ((l.filter (fun e => decide (r e = i))).map f).sum := by
  intro l
  induction l with
  | nil => intro s i hi; simp
  | cons e l ih =>
    intro s i hi
    rw [List.foldl_cons, ih _ i (by rw [List.length_set]; exact hi)]
    by_cases hre : r e = i
    · have hlt : r e < s.length := hre ▸ hi
      rw [List.filter_cons_of_pos (by simp [hre])]
      rw [List.map_cons, List.sum_cons]
      have hset : (s.set (r e) (s.getD (r e) 0 + f e)).getD i 0
          = s.getD i 0 + f e := by
        subst hre
        rw [List.getD_eq_getElem _ _ (by simpa [List.length_set] using hi),
          List.getElem_set_self, List.getD_eq_getElem _ _ hi]
      rw [hset]
      ring
    · rw [List.filter_cons_of_neg (by simp [hre])]
      have hset : (s.set (r e) (s.getD (r e) 0 + f e)).getD i 0 = s.getD i 0 := by
        rw [List.getD_eq_getElem _ _ (by simpa [List.length_set] using hi),
          List.getElem_set_ne hre, List.getD_eq_getElem _ _ hi]
      rw [hset]

/-- Overwriting fold: writing `f e` into slot `r e` for each element in turn
leaves slot `i` holding `f` of the LAST element with `r e = i`, or its
initial value if there is none (expressed as a fold over the filter). -/
theorem getD_foldl_set_write {α : Type} (r : α → Nat) (f : α → ℚ) :
    ∀ (l : List α) (s : List ℚ) (i : Nat), i < s.length →
      ((l.foldl (fun acc e => acc.set (r e) (f e)) s).getD i 0)
        = (l.filter (fun e => decide (r e = i))).foldl (fun _ e => f e) (s.getD i 0) := by
  intro l
  induction l with
  | nil => intro s i hi; rfl
  | cons e l ih =>
    intro s i hi
    rw [List.foldl_cons, ih _ i (by rw [List.length_set]; exact hi)]
    by_cases hre : r e = i
    · rw [List.filter_cons_of_pos (by simp [hre]), List.foldl_cons]
      have hset : (s.set (r e) (f e)).getD i 0 = f e := by
        subst hre
        rw [List.getD_eq_getElem _ _ (by simpa [List.length_set] using hi),
          List.getElem_set_self]
      rw [hset]
    · rw [List.filter_cons_of_neg (by simp [hre])]
      have hset : (s.set (r e) (f e)).getD i 0 = s.getD i 0 := by
        rw [List.getD_eq_getElem _ _ (by simpa [List.length_set] using hi),
          List.getElem_set_ne hre, List.getD_eq_getElem _ _ hi]
      rw [hset]

/-- `all` over the zip of two equal-length lists is a pointwise condition. -/
theorem all_zip_iff (p : ℚ × ℚ → Bool) :
    ∀ (l1 l2 : List ℚ), l1.length = l2.length →
      (((l1.zip l2).all p = true) ↔
        ∀ i, i < l1.length → p (l1.getD i 0, l2.getD i 0) = true) := by
  intro l1
  induction l1 with
  | nil => intro l2 h; simp
  | cons a l1 ih =>
    intro l2 h
    cases l2 with
    | nil => simp at h
    | cons b l2 =>
      simp only [List.zip_cons_cons, List.all_cons, Bool.and_eq_true]
      rw [ih l2 (by simpa using h)]
      constructor
      · rintro ⟨hp, hrest⟩ i hi
        cases i with
        | zero => simpa using hp
        | succ n => simpa using hrest n (by simpa using hi)
      · intro hall
        refine ⟨by simpa using hall 0 (by simp), fun i hi => ?_⟩
        simpa using hall (i + 1) (by simpa using hi)

/-- `getD` of `List.replicate n 0` is 0. -/
theorem getD_replicate_zero (n i : Nat) : (List.replicate n (0 : ℚ)).getD i 0 = 0 := by
  by_cases h : i < n
  · rw [List.getD_eq_getElem _ _ (by simpa using h), List.getElem_replicate]
  · rw [List.getD_eq_default _ _ (by simpa using Nat.le_of_not_lt h)]

/-- `getD i` of `(List.range n).map f` is `f i` for `i < n`. -/
theorem getD_map_range (f : Nat → ℚ) {n i : Nat} (h : i < n) :
    ((List.range n).map f).getD i 0 = f i := by
  rw [List.getD_eq_getElem _ _ (by simpa using h)]
  rw [List.getElem_map, List.getElem_range]

/-- In a list whose keys are pairwise distinct, at most one element has any
given key. -/
theorem filter_key_len_le_one {α : Type} (key : α → Nat) :
    ∀ (l : List α), l.Pairwise (fun a b => key a ≠ key b) →
      ∀ r, (l.filter (fun e => decide (key e = r))).length ≤ 1 := by
  intro l
  induction l with
  | nil => intro _ r; simp
  | cons a l ih =>
    intro hpw r
    rw [List.pairwise_cons] at hpw
    by_cases ha : key a = r
    · rw [List.filter_cons_of_pos (by simp [ha])]
      have : l.filter (fun e => decide (key e = r)) = [] := by
        rw [List.filter_eq_nil_iff]
        intro b hb
        simp only [decide_eq_true_eq]
        intro hbr
        exact hpw.1 b hb (by rw [hbr, ha])
      simp [this]
    · rw [List.filter_cons_of_neg (by simp [ha])]
      exact ih hpw.2 r

/-! ## Solver support lemmas -/

/-- When every entry is in bounds, the `dot` loop never panics and computes
the scatter-add fold. -/
theorem dotLoop_ok (x : List ℚ) :
    ∀ (l : List SparseEntry) (b : List ℚ),
      (∀ e ∈ l, e.1 < b.length ∧ e.2.1 < x.length) →
      dotLoop x l b = some (l.foldl
        (fun b e => b.set e.1 (b.getD e.1 0 + x.getD e.2.1 0 * e.2.2)) b) := by
  intro l
  induction l with
  | nil => intro b _; rfl
  | cons e l ih =>
    intro b hb
    rw [dotLoop, if_pos (hb e (by simp))]
    rw [List.foldl_cons]
    exact ih _ (fun e' he' => by
      rw [List.length_set]
      exact hb e' (List.mem_cons_of_mem _ he'))

/-- Under the in-bounds hypotheses, `dot` succeeds and returns `dotVal`. -/
theorem dot_ok (m : SparseMatrix) (x : List ℚ)
    (hb : ∀ e ∈ m.entries, e.1 < m.n_rows ∧ e.2.1 < m.n_cols)
    (hx : m.n_cols = x.length) :
    dot m x = some (dotVal m x) := by
  rw [dot, if_neg (by simp [hx])]
  rw [dotLoop_ok x m.entries _ (fun e he => by
    rw [List.length_replicate]
    exact ⟨(hb e he).1, hx ▸ (hb e he).2⟩)]
  rfl

/-- Under the in-bounds hypotheses, `error_sq` succeeds and returns `errVal`. -/
theorem error_sq_ok (m : SparseMatrix) (column x : List ℚ)
    (hb : ∀ e ∈ m.entries, e.1 < m.n_rows ∧ e.2.1 < m.n_cols)
    (hx : m.n_cols = x.length) :
    error_sq m column x = some (errVal m column x) := by
  rw [error_sq, dot_ok m x hb hx]
  rfl

/-- A sweep preserves the length of the iterate. -/
theorem sweepUpdate_length (m : SparseMatrix) (column x : List ℚ) :
    (sweepUpdate m column x).length = x.length := by
  simp [sweepUpdate]

/-- Every iterate keeps the length of the initial guess. -/
theorem sweepIter_length (m : SparseMatrix) (column x0 : List ℚ) :
    ∀ k, (sweepIter m column x0 k).length = x0.length := by
  intro k
  induction k with
  | zero => rfl
  | succ k ih => rw [sweepIter, sweepUpdate_length, ih]

/-- Starting the iteration one sweep later shifts the index. -/
theorem sweepIter_shift (m : SparseMatrix) (column x : List ℚ) :
    ∀ t, sweepIter m column (sweepUpdate m column x) t = sweepIter m column x (t + 1) := by
  intro t
  induction t with
  | zero => rfl
  | succ t ih => rw [sweepIter, ih]; rfl

/-- `diagonal_values` is the value projection of `diagonal_entries`. -/
theorem diagonal_values_eq (m : SparseMatrix) :
    diagonal_values m = (diagonal_entries m).map (fun e => e.2.2) := rfl

/-- The update computed for slot `i` by a sweep, when every row has exactly
one diagonal entry (listed in row order, as preprocessing guarantees):
`(column[i] − Σ_{off-diagonal entries of row i} value·x[col]) / d i`,
with every read of `x` taken from the pre-sweep iterate. -/
theorem sweepUpdate_getD (m : SparseMatrix) (column x : List ℚ) (d : Nat → ℚ)
    (hshape : diagonal_entries m = (List.range m.n_rows).map (fun r => (r, r, d r)))
    (hx : x.length = m.n_rows) (i : Nat) (hi : i < m.n_rows) :
    (sweepUpdate m column x).getD i 0
      = (column.getD i 0 - offRowSum m x i) / d i := by
  rw [sweepUpdate]
  have hrs : ((off_diagonal_entries m).foldl
      (fun s e => s.set e.1 (s.getD e.1 0 + e.2.2 * x.getD e.2.1 0))
      (List.replicate m.n_rows 0)).getD i 0 = offRowSum m x i := by
    rw [getD_foldl_set_add (fun e => e.1) (fun e => e.2.2 * x.getD e.2.1 0)
      (off_diagonal_entries m) _ i (by simpa using hi)]
    rw [getD_replicate_zero, zero_add, offRowSum, off_diagonal_entries,
      List.filter_filter]
    have hfil : m.entries.filter (fun a => decide (a.1 = i) && decide ¬a.1 = a.2.1)
        = m.entries.filter (fun e => decide (e.1 = i ∧ ¬ e.1 = e.2.1)) := by
      apply List.filter_congr
      intro e _
      simp [Bool.decide_and]
    rw [hfil]
  have hd : (diagonal_values m).getD i 0 = d i := by
    rw [diagonal_values_eq, hshape, List.map_map]
    exact getD_map_range (fun r => d r) hi
  rw [getD_map_range _ (show i < x.length by rw [hx]; exact hi)] at *
  · rw [hrs, hd]

/-- Characterisation of `is_gauss_seidel_convergent`: true iff every row
`r < n_rows` has `Σ|off-diagonal| ≤ |diagonal|`, provided no row has two
diagonal entries (so "the diagonal value" is well defined; a missing
diagonal counts as 0, exactly as the zero-initialised array does). -/
theorem is_gauss_seidel_convergent_iff (m : SparseMatrix)
    (hu : (diagonal_entries m).Pairwise (fun a b => a.1 ≠ b.1)) :
    (is_gauss_seidel_convergent m = true ↔
      ∀ r, r < m.n_rows → offAbsSum m r ≤ diagAbs m r) := by
  rw [is_gauss_seidel_convergent]
  have hlenD := length_foldl_set (fun e : SparseEntry => e.1) (fun _ e => |e.2.2|)
    (diagonal_entries m) (List.replicate m.n_rows 0)
  have hlenO := length_foldl_set (fun e : SparseEntry => e.1)
    (fun d e => d.getD e.1 0 + |e.2.2|)
    (off_diagonal_entries m) (List.replicate m.n_rows 0)
  rw [all_zip_iff _ _ _ (by rw [hlenD, hlenO])]
  have hself : ∀ i, i < m.n_rows →
      ((diagonal_entries m).foldl (fun d e => d.set e.1 |e.2.2|)
        (List.replicate m.n_rows 0)).getD i 0 = diagAbs m i := by
    intro i hi
    rw [getD_foldl_set_write (fun e : SparseEntry => e.1) (fun e => |e.2.2|)
      (diagonal_entries m) _ i (by simpa using hi)]
    rw [getD_replicate_zero]
    have hle := filter_key_len_le_one (fun e : SparseEntry => e.1)
      (diagonal_entries m) hu i
    have hfil : (diagonal_entries m).filter (fun e => decide (e.1 = i))
        = m.entries.filter (fun e => decide (e.1 = i ∧ e.1 = e.2.1)) := by
      rw [diagonal_entries, List.filter_filter]
      apply List.filter_congr
      intro e _
      simp [Bool.decide_and, Bool.and_comm]
    rw [hfil] at hle ⊢
    rw [diagAbs]
    cases hcase : m.entries.filter (fun e => decide (e.1 = i ∧ e.1 = e.2.1)) with
    | nil => simp
    | cons a tl =>
      rw [hcase] at hle
      simp only [List.length_cons] at hle
      have htl : tl = [] := List.length_eq_zero.mp (by omega)
      subst htl
      simp
  have hoff : ∀ i, i < m.n_rows →
      ((off_diagonal_entries m).foldl (fun d e => d.set e.1 (d.getD e.1 0 + |e.2.2|))
        (List.replicate m.n_rows 0)).getD i 0 = offAbsSum m i := by
    intro i hi
    rw [getD_foldl_set_add (fun e : SparseEntry => e.1) (fun e => |e.2.2|)
      (off_diagonal_entries m) _ i (by simpa using hi)]
    rw [getD_replicate_zero, zero_add, offAbsSum, off_diagonal_entries,
      List.filter_filter]
    have hfil : m.entries.filter (fun a => decide (a.1 = i) && decide ¬a.1 = a.2.1)
        = m.entries.filter (fun e => decide (e.1 = i ∧ ¬ e.1 = e.2.1)) := by
      apply List.filter_congr
      intro e _
      simp [Bool.decide_and]
    rw [hfil]
  constructor
  · intro hall r hr
    have := hall r (by rw [hlenD]; simpa using hr)
    rw [hself r hr, hoff r hr] at this
    simpa using this
  · intro hrow i hi
    rw [hlenD] at hi
    simp only [List.length_replicate] at hi
    rw [hself i hi, hoff i hi]
    simpa using hrow i hi

/-- If the residual stays at or above tolerance after each of the remaining
`fuel` sweeps, the loop runs them all and falls through to the
max-iterations record. -/
theorem solveLoop_no_exit (m : SparseMatrix) (column : List ℚ) (tol : ℚ)
    (max_iters : Nat)
    (hb : ∀ e ∈ m.entries, e.1 < m.n_rows ∧ e.2.1 < m.n_cols)
    (hsq : m.n_cols = m.n_rows) :
    ∀ (fuel iter : Nat) (x : List ℚ), x.length = m.n_rows →
      (∀ t, 1 ≤ t → t ≤ fuel → tol ≤ errVal m column (sweepIter m column x t)) →
      solveLoop m column tol max_iters fuel iter x =
        some { solution := some (sweepIter m column x fuel), converged := true,
               diagonal_dominance := some true, iters := max_iters, tol := tol,
               max_iters_reached := true,
               error := some (errVal m column (sweepIter m column x fuel)),
               message := "Converged in " ++ toString max_iters ++
                 " iterations (max iterations reached)",
               elapsed_time := some () } := by
  intro fuel
  induction fuel with
  | zero =>
    intro iter x hx _
    rw [solveLoop, error_sq_ok m column x hb (by rw [hsq, hx])]
    rfl
  | succ fuel ih =>
    intro iter x hx herr
    rw [solveLoop]
    have hx2 : (sweepUpdate m column x).length = m.n_rows := by
      rw [sweepUpdate_length, hx]
    rw [error_sq_ok m column (sweepUpdate m column x) hb (by rw [hsq, hx2])]
    have h1 : tol ≤ errVal m column (sweepUpdate m column x) := by
      have := herr 1 (by omega) (by omega)
      simpa [sweepIter] using this
    rw [Option.some_bind, if_neg (not_lt.mpr h1)]
    rw [ih (iter + 1) (sweepUpdate m column x) hx2 (fun t ht1 ht2 => by
      rw [sweepIter_shift]
      exact herr (t + 1) (by omega) (by omega))]
    rw [sweepIter_shift]

/-- If the residual first drops below tolerance after sweep `s+1 ≤ fuel`,
the loop stops there and reports convergence after `iter + s + 1` sweeps. -/
theorem solveLoop_exit (m : SparseMatrix) (column : List ℚ) (tol : ℚ)
    (max_iters : Nat)
    (hb : ∀ e ∈ m.entries, e.1 < m.n_rows ∧ e.2.1 < m.n_cols)
    (hsq : m.n_cols = m.n_rows) :
    ∀ (fuel iter s : Nat) (x : List ℚ), x.length = m.n_rows → s < fuel →
      (∀ t, 1 ≤ t → t ≤ s → tol ≤ errVal m column (sweepIter m column x t)) →
      errVal m column (sweepIter m column x (s + 1)) < tol →
      solveLoop m column tol max_iters fuel iter x =
        some { solution := some (sweepIter m column x (s + 1)), converged := true,
               diagonal_dominance := some true, iters := iter + s + 1, tol := tol,
               max_iters_reached := false,
               error := some (errVal m column (sweepIter m column x (s + 1))),
               message := "Converged in " ++ toString (iter + s + 1) ++ " iterations",
               elapsed_time := some () } := by
  intro fuel
  induction fuel with
  | zero => intro iter s x _ hs; omega
  | succ fuel ih =>
    intro iter s x hx hs herr hexit
    rw [solveLoop]
    have hx2 : (sweepUpdate m column x).length = m.n_rows := by
      rw [sweepUpdate_length, hx]
    rw [error_sq_ok m column (sweepUpdate m column x) hb (by rw [hsq, hx2])]
    rw [Option.some_bind]
    cases s with
    | zero =>
      have h1 : errVal m column (sweepUpdate m column x) < tol := by
        simpa [sweepIter] using hexit
      rw [if_pos h1]
      have hone : sweepIter m column x 1 = sweepUpdate m column x := rfl
      rw [hone]
    | succ s =>
      have h1 : tol ≤ errVal m column (sweepUpdate m column x) := by
        have := herr 1 (by omega) (by omega)
        simpa [sweepIter] using this
      rw [if_neg (not_lt.mpr h1)]
      have harith : iter + (s + 1) + 1 = (iter + 1) + s + 1 := by omega
      rw [harith]
      rw [ih (iter + 1) s (sweepUpdate m column x) hx2 (by omega)
        (fun t ht1 ht2 => by
          rw [sweepIter_shift]
          exact herr (t + 1) (by omega) (by omega))
        (by rw [sweepIter_shift]; exact hexit)]
      rw [sweepIter_shift]

/-! ## Claim theorems: solver -/

/-- Claim C8: if some row of the coefficient matrix has absolute diagonal
value strictly below the sum of absolute off-diagonal values in that row,
then `gauss_seidel_solve` (with a correctly sized initial guess) returns
immediately with `diagonal_dominance = Some(false)`, `converged = false`,
`iters = 0`, `solution = None` and performs no sweep; and
`is_gauss_seidel_convergent` returns true exactly when every row satisfies
`|diagonal| ≥ Σ|off-diagonal|`. Hypotheses: every entry row is in bounds
(otherwise Rust panics building the per-row arrays) and no row carries two
diagonal entries (so "the diagonal value" of a row is well defined; a row
with none counts as diagonal 0, exactly as the code's zero-filled array). -/
theorem claim_C8 :
    (∀ (m : SparseMatrix) (column x0 : List ℚ) (tol : ℚ) (max_iters : Nat),
      (∀ e ∈ m.entries, e.1 < m.n_rows) →
      (diagonal_entries m).Pairwise (fun a b => a.1 ≠ b.1) →
      x0.length = m.n_rows →
      (∃ r, r < m.n_rows ∧ diagAbs m r < offAbsSum m r) →
      gauss_seidel_solve m column x0 tol max_iters =
        some { solution := none, converged := false, diagonal_dominance := some false,
               iters := 0, tol := tol, max_iters_reached := false, error := none,
               message := "The coefficients matrix is not diagonally dominant",
               elapsed_time := none })
    ∧ (∀ (m : SparseMatrix),
      (∀ e ∈ m.entries, e.1 < m.n_rows) →
      (diagonal_entries m).Pairwise (fun a b => a.1 ≠ b.1) →
      (is_gauss_seidel_convergent m = true ↔
        ∀ r, r < m.n_rows → offAbsSum m r ≤ diagAbs m r)) := by
  constructor
  · intro m column x0 tol max_iters hb hu hx0 hex
    obtain ⟨r, hr, hviol⟩ := hex
    have hconv : is_gauss_seidel_convergent m = false := by
      rw [Bool.eq_false_iff]
      intro ht
      exact absurd ((is_gauss_seidel_convergent_iff m hu).mp ht r hr)
        (not_le.mpr hviol)
    rw [gauss_seidel_solve, if_neg (by simp [hx0]), if_pos (by simp [hconv])]
  · intro m hb hu
    exact is_gauss_seidel_convergent_iff m hu

/-- Witness for C8 at the spec's concrete matrix: row 2 has |5| < |7|, so
the solve call returns the immediate non-dominance record, and the
dominance predicate instance holds. -/
theorem claim_C8_witness :
    ((∀ e ∈ mFix2.entries, e.1 < mFix2.n_rows) ∧ ([0, 0, 0] : List ℚ).length = mFix2.n_rows) ∧
    gauss_seidel_solve mFix2 [1, 1, 1] [0, 0, 0] (1/1000) 5 =
      some { solution := none, converged := false, diagonal_dominance := some false,
             iters := 0, tol := 1/1000, max_iters_reached := false, error := none,
             message := "The coefficients matrix is not diagonally dominant",
             elapsed_time := none } ∧
    (is_gauss_seidel_convergent mFix2 = true ↔
      ∀ r, r < mFix2.n_rows → offAbsSum mFix2 r ≤ diagAbs mFix2 r) :=
  ⟨⟨by decide, by decide⟩,
    claim_C8.1 mFix2 [1, 1, 1] [0, 0, 0] (1/1000) 5 (by decide) (by decide) (by decide)
      ⟨2, by decide, by
        show diagAbs mFix2 2 < offAbsSum mFix2 2
        norm_num [diagAbs, offAbsSum, mFix2]⟩,
    claim_C8.2 mFix2 (by decide) (by decide)⟩

/-- Claim C9: assuming every row of the preprocessed matrix has exactly one
diagonal entry — which after sorting means `diagonal_entries` is exactly
`[(0,0,d 0), …, (n-1,n-1,d (n-1))]` — a sweep is a Jacobi update: slot `i`
of the new iterate equals `(rhs_i − Σ_{j≠i} a_ij·x_j) / a_ii`, every `x_j`
read from the pre-sweep iterate and slot `i` the only slot row `i` writes
(the sweep is a `map` over slots, and it preserves the length). If after
some sweep `k+1 ≤ max_iters` the residual `‖Ax−b‖²` first drops below
tolerance, the solver stops there with `converged = true` and `iters = k+1`. -/
theorem claim_C9 :
    (∀ (m : SparseMatrix) (column x : List ℚ) (d : Nat → ℚ),
      diagonal_entries m = (List.range m.n_rows).map (fun r => (r, r, d r)) →
      x.length = m.n_rows →
      ((sweepUpdate m column x).length = x.length ∧
        ∀ i, i < m.n_rows →
          (sweepUpdate m column x).getD i 0
            = (column.getD i 0 - offRowSum m x i) / d i))
    ∧ (∀ (m : SparseMatrix) (column x0 : List ℚ) (tol : ℚ) (max_iters k : Nat),
      (∀ e ∈ m.entries, e.1 < m.n_rows ∧ e.2.1 < m.n_cols) →
      m.n_cols = m.n_rows →
      x0.length = m.n_rows →
      is_gauss_seidel_convergent m = true →
      k < max_iters →
      (∀ t, 1 ≤ t → t ≤ k → tol ≤ errVal m column (sweepIter m column x0 t)) →
      errVal m column (sweepIter m column x0 (k + 1)) < tol →
      gauss_seidel_solve m column x0 tol max_iters =
        some { solution := some (sweepIter m column x0 (k + 1)), converged := true,
               diagonal_dominance := some true, iters := k + 1, tol := tol,
               max_iters_reached := false,
               error := some (errVal m column (sweepIter m column x0 (k + 1))),
               message := "Converged in " ++ toString (k + 1) ++ " iterations",
               elapsed_time := some () }) := by
  constructor
  · intro m column x d hshape hx
    exact ⟨sweepUpdate_length m column x,
      fun i hi => sweepUpdate_getD m column x d hshape hx i hi⟩
  · intro m column x0 tol max_iters k hb hsq hx0 hconv hk herr hexit
    rw [gauss_seidel_solve, if_neg (by simp [hx0]), if_neg (by simp [hconv])]
    have h := solveLoop_exit m column tol max_iters hb hsq max_iters 0 k x0 hx0
      hk herr hexit
    rw [h]
    have h0 : 0 + k + 1 = k + 1 := by omega
    rw [h0]

/-- Witness for C9 at the 2×2 identity system: the diagonal shape
hypothesis holds with `d = 1`, the sweep formula instance holds at slot 0,
and from `x0 = [0,0]`, `b = [0,0]`, `tol = 1`, `max_iters = 2` the solver
stops after sweep 1 with the convergence record. -/
theorem claim_C9_witness :
    (diagonal_entries mFixId
        = (List.range mFixId.n_rows).map (fun r => (r, r, (fun _ => (1 : ℚ)) r)) ∧
      (sweepUpdate mFixId [0, 0] [0, 0]).getD 0 0
        = (([0, 0] : List ℚ).getD 0 0 - offRowSum mFixId [0, 0] 0) / (fun _ => (1 : ℚ)) 0) ∧
    (errVal mFixId [0, 0] (sweepIter mFixId [0, 0] [0, 0] (0 + 1)) < 1 ∧
      gauss_seidel_solve mFixId [0, 0] [0, 0] 1 2 =
        some { solution := some (sweepIter mFixId [0, 0] [0, 0] (0 + 1)), converged := true,
               diagonal_dominance := some true, iters := 0 + 1, tol := 1,
               max_iters_reached := false,
               error := some (errVal mFixId [0, 0] (sweepIter mFixId [0, 0] [0, 0] (0 + 1))),
               message := "Converged in " ++ toString (0 + 1) ++ " iterations",
               elapsed_time := some () }) := by
  have hshape : diagonal_entries mFixId
      = (List.range mFixId.n_rows).map (fun r => (r, r, (fun _ => (1 : ℚ)) r)) := by decide
  have hexit : errVal mFixId [0, 0] (sweepIter mFixId [0, 0] [0, 0] (0 + 1)) < 1 := by
    norm_num [errVal, dotVal, sweepIter, sweepUpdate, mFixId, off_diagonal_entries,
      diagonal_values, List.filter, List.range, List.range.loop, List.set,
      List.getElem_cons_zero, List.getElem_cons_succ,
      (show getElem ([0, 0] : List ℚ) 1 (by decide) = (0 : ℚ) from rfl)]
  refine ⟨⟨hshape, (claim_C9.1 mFixId [0, 0] [0, 0] (fun _ => (1 : ℚ)) hshape (by decide)).2
      0 (by decide)⟩, hexit, ?_⟩
  exact claim_C9.2 mFixId [0, 0] [0, 0] 1 2 0 (by decide) (by decide) (by decide)
    (by decide) (by decide) (fun t ht1 ht2 => absurd (le_trans ht1 ht2) (by omega)) hexit

/-- Claim C10: if the residual never falls below tolerance within
`max_iters` sweeps, the solver returns `max_iters_reached = true`,
`iters = max_iters`, `converged = true` (as the claim states — the code
really does report convergence in this branch), the final iterate as
solution and the final residual norm squared as error. -/
theorem claim_C10 (m : SparseMatrix) (column x0 : List ℚ) (tol : ℚ) (max_iters : Nat)
    (hb : ∀ e ∈ m.entries, e.1 < m.n_rows ∧ e.2.1 < m.n_cols)
    (hsq : m.n_cols = m.n_rows)
    (hx0 : x0.length = m.n_rows)
    (hconv : is_gauss_seidel_convergent m = true)
    (herr : ∀ t, 1 ≤ t → t ≤ max_iters →
      tol ≤ errVal m column (sweepIter m column x0 t)) :
    gauss_seidel_solve m column x0 tol max_iters =
      some { solution := some (sweepIter m column x0 max_iters), converged := true,
             diagonal_dominance := some true, iters := max_iters, tol := tol,
             max_iters_reached := true,
             error := some (errVal m column (sweepIter m column x0 max_iters)),
             message := "Converged in " ++ toString max_iters ++
               " iterations (max iterations reached)",
             elapsed_time := some () } := by
  rw [gauss_seidel_solve, if_neg (by simp [hx0]), if_neg (by simp [hconv])]
  exact solveLoop_no_exit m column tol max_iters hb hsq max_iters 0 x0 hx0 herr

/-- Witness for C10 at the 2×2 identity system with `tol = 0` and
`max_iters = 1`: the residual (which is 0) is never strictly below 0, so
the solver stops at the max-iterations record with `converged = true`. -/
theorem claim_C10_witness :
    (∀ t, 1 ≤ t → t ≤ 1 → (0 : ℚ) ≤ errVal mFixId [0, 0] (sweepIter mFixId [0, 0] [0, 0] t)) ∧
    gauss_seidel_solve mFixId [0, 0] [0, 0] 0 1 =
      some { solution := some (sweepIter mFixId [0, 0] [0, 0] 1), converged := true,
             diagonal_dominance := some true, iters := 1, tol := 0,
             max_iters_reached := true,
             error := some (errVal mFixId [0, 0] (sweepIter mFixId [0, 0] [0, 0] 1)),
             message := "Converged in " ++ toString 1 ++
               " iterations (max iterations reached)",
             elapsed_time := some () } := by
  have herr : ∀ t, 1 ≤ t → t ≤ 1 →
      (0 : ℚ) ≤ errVal mFixId [0, 0] (sweepIter mFixId [0, 0] [0, 0] t) := by
    intro t ht1 ht2
    have ht : t = 1 := by omega
    subst ht
    norm_num [errVal, dotVal, sweepIter, sweepUpdate, mFixId, off_diagonal_entries,
      diagonal_values, List.filter, List.range, List.range.loop, List.set,
      List.getElem_cons_zero, List.getElem_cons_succ,
      (show getElem ([0, 0] : List ℚ) 1 (by decide) = (0 : ℚ) from rfl)]
  exact ⟨herr, claim_C10 mFixId [0, 0] [0, 0] 0 1 (by decide) (by decide) (by decide)
    (by decide) herr⟩

unseal Rat.add Rat.mul Rat.sub Rat.inv in
/-- Claim C1, demonstration of the code bug: the one-entry matrix with its
entry in row 1 is preprocessed (sizes computed, entries sorted, row index
built), and `x = [1]` has length `n_cols = 1`, yet `dot` returns
`Ok([0, 1])` (correct) while `dot_par` returns `Ok([1, 0])`:
`compute_row_indices` starts its scan with `current_row = 0`, so when row 0
has no entries the closing write `row_indices[current_row] = (start, len-1)`
attributes the first block to row 0. The two products disagree, refuting
the claim that they always agree after preprocessing. -/
theorem claim_C1_bug :
    (preprocess mFix1).map (fun mm => (dot mm [1], dot_par mm [1]))
      = some (some [0, 1], some [1, 0]) := by
  have h1 : compute_size mFix1
      = { entries := [(1, 0, (1 : ℚ))], n_rows := 2, n_cols := 1, row_indices := [] } := by
    decide
  have h2 : sort_entries
        { entries := [(1, 0, (1 : ℚ))], n_rows := 2, n_cols := 1, row_indices := [] }
      = { entries := [(1, 0, (1 : ℚ))], n_rows := 2, n_cols := 1, row_indices := [] } := by
    simp [sort_entries, List.mergeSort_singleton]
  rw [preprocess, h1, h2]
  decide

/-! ## Claim theorems: mesh builder -/

unseal Rat.add Rat.mul Rat.sub Rat.inv in
/-- Claim C2, demonstration of the code bug: on a flat 2×2 grid at height 1
with levels [0, 2, 4] (one column, two cells, the column is at all four
horizontal domain edges), the full wall-kind matrix of the returned mesh
contains NO Terrain wall at all — the bottommost cell's lower wall is
Interior — because cells exist for `k < z_count-1` while the Terrain branch
requires `k = z_count-1`; and the north and east walls are Interior, not
Inlet, because the loop bound is `i < nx-1` while the Inlet checks test
`i = nx-1` (resp. `j = ny-1`), which never holds. Only south/west Inlet and
the Sky wall match the claim. -/
theorem claim_C2_bug :
    (naive_mesh (flatGrid 1) [0, 2, 4]).map
      (fun m => m.cells.map (fun c => c.walls.map Wall.kind))
      = some [[WallKind.Sky, WallKind.Inlet, WallKind.Inlet,
               WallKind.Interior, WallKind.Interior, WallKind.Interior],
              [WallKind.Interior, WallKind.Inlet, WallKind.Inlet,
               WallKind.Interior, WallKind.Interior, WallKind.Interior]] := by
  decide

set_option synthInstance.maxSize 400 in
unseal Rat.add Rat.mul Rat.sub Rat.inv in
/-- Claim C3, demonstration of the code bug: on a flat 2×2 grid at height 3
with levels [0, 2, 4] the returned mesh has exactly one cell, with
compacted id 0, yet its walls still carry the provisional ids: the lower
wall (misclassified Interior, see C2) references cell id 4 and the north
and east walls reference 1 and 2 — all outside the compact range [0, 1) —
because the reindex loop iterates over `cell.walls.clone()` and mutates the
clone, never the walls themselves. -/
theorem claim_C3_bug :
    (naive_mesh (flatGrid 3) [0, 2, 4]).map
      (fun m => (m.cells.length, m.cells.map Cell.id,
        m.cells.map (fun c => c.walls.map Wall.cells_id)))
      = some (1, [0],
          [[(some 0, none), (some 0, none), (some 0, none),
            (some 0, some 4), (some 0, some 1), (some 0, some 2)]]) := by
  decide

unseal Rat.add Rat.mul Rat.sub Rat.inv in
/-- Claim C5, demonstration of the code bug: a flat 2×2 grid at height −1
lies entirely below the levels [0, 1, 2], so every level passes the
`take_while` and `z_count = nz+1`; the cell loop then reads `zs[nz]`,
which panics (index out of bounds) in Rust — modelled as `none` — instead
of yielding zero cells for the column and completing the build. -/
theorem claim_C5_bug : naive_mesh (flatGrid (-1)) [0, 1, 2] = none := by
  decide

unseal Rat.add Rat.mul Rat.sub Rat.inv in
/-- Counterexample to claim C6 as stated: a constant elevation 2 with
ascending distinct levels [0, 1, 3] (`L = 2`) yields a mesh whose single
column contains 1 cell, not `L = 2`: only one level (3) lies at or above
the terrain, so `z_count = 2`. The flat-terrain count is `L` only when the
constant height lies in `(z0, z1]`. -/
theorem claim_C6_counterexample :
    (naive_mesh (flatGrid 2) [0, 1, 3]).map (fun m => m.cells.length) = some 1 ∧
    (naive_mesh (flatGrid 2) [0, 1, 3]).map (fun m => m.cells.length) ≠ some 2 := by
  constructor
  · decide
  · decide

unseal Rat.add Rat.mul Rat.sub Rat.inv in
/-- Counterexample to claim C7 as stated: `naive_mesh` merely REVERSES the
input level list (under the comment "Assume zs are sorted") instead of
sorting it descending, so permuting the input changes the result: on a
flat 2×2 grid at height 1, the ascending input [0, 2] builds a mesh, while
the permutation [2, 0] panics (the reversed list starts at 0 < 1, the
`take_while` run is empty and its `.unwrap()` fails), modelled as `none`. -/
theorem claim_C7_counterexample :
    (naive_mesh (flatGrid 1) [0, 2]).isSome = true ∧
    naive_mesh (flatGrid 1) [2, 0] = none := by
  constructor
  · decide
  · decide

/-! ## Mesh-builder support lemmas (towards the compaction theorem C4) -/

/-- Extending a `range`-flatMap beyond the point where the function returns
`[]` changes nothing. -/
theorem flatMap_range_of_nil {β : Type} (f : Nat → List β) (a b : Nat) (hab : a ≤ b)
    (h : ∀ i, a ≤ i → f i = []) :
    (List.range b).flatMap f = (List.range a).flatMap f := by
  induction b with
  | zero =>
    have : a = 0 := Nat.le_zero.mp hab
    subst this
    rfl
  | succ b ih =>
    rcases Nat.lt_or_ge a (b + 1) with hlt | hge
    · have hab' : a ≤ b := by omega
      rw [List.range_succ, List.flatMap_append, ih hab']
      simp [h b (by omega)]
    · have : a = b + 1 := by omega
      subst this
      rfl

/-- Extending a `range`-filterMap beyond the point where the function
returns `none` changes nothing. -/
theorem filterMap_range_of_none {β : Type} (g : Nat → Option β) (a b : Nat) (hab : a ≤ b)
    (h : ∀ k, a ≤ k → g k = none) :
    (List.range b).filterMap g = (List.range a).filterMap g := by
  induction b with
  | zero =>
    have : a = 0 := Nat.le_zero.mp hab
    subst this
    rfl
  | succ b ih =>
    rcases Nat.lt_or_ge a (b + 1) with hlt | hge
    · have hab' : a ≤ b := by omega
      rw [List.range_succ, List.filterMap_append, ih hab']
      simp [h b (by omega)]
    · have : a = b + 1 := by omega
      subst this
      rfl

/-- A filterMap over `range n` guarded by `k < m` is the map over
`range (min m n)`. -/
theorem filterMap_range_if {β : Type} (g : Nat → β) (m n : Nat) :
    (List.range n).filterMap (fun k => if k < m then some (g k) else none)
      = (List.range (min m n)).map g := by
  induction n with
  | zero => simp
  | succ n ih =>
    rw [List.range_succ, List.filterMap_append, ih]
    by_cases h : n < m
    · rw [show min m (n + 1) = n + 1 by omega, show min m n = n by omega,
        List.range_succ, List.map_append]
      simp [h]
    · rw [show min m (n + 1) = min m n by omega]
      simp [h]

/-- Uniqueness of the base-`b` decomposition `b*k + A` with `A < b`. -/
theorem decomp_unique (b k A k' A' : Nat) (hA : A < b) (hA' : A' < b)
    (h : b * k + A = b * k' + A') : k = k' ∧ A = A' := by
  have hb : 0 < b := by omega
  have e1 : (b * k + A) / b = k := by
    rw [Nat.add_comm, Nat.add_mul_div_left A k hb, Nat.div_eq_of_lt hA, Nat.zero_add]
  have e1' : (b * k' + A') / b = k' := by
    rw [Nat.add_comm, Nat.add_mul_div_left A' k' hb, Nat.div_eq_of_lt hA', Nat.zero_add]
  have hk : k = k' := by
    rw [← e1, ← e1', h]
  refine ⟨hk, ?_⟩
  subst hk
  omega

/-- Unpacking `colsOk`: every processed column has a nonzero take_while
run that does not cover the whole level list. -/
theorem colsOk_spec (terrain : Grid) (zsr : List ℚ) (h : colsOk terrain zsr = true) :
    ∀ i j, i < terrain.nx - 1 → j < terrain.ny - 1 →
      takenCount terrain zsr i j ≠ 0 ∧ takenCount terrain zsr i j ≠ zsr.length := by
  intro i j hi hj
  rw [colsOk, List.all_eq_true] at h
  have h1 := h i (List.mem_range.mpr hi)
  rw [List.all_eq_true] at h1
  have h2 := h1 j (List.mem_range.mpr hj)
  rw [colOk] at h2
  simpa using h2

/-- The id of the cell slot at (i,j,k), through an arbitrary post-map `F`:
`some (F pid)` when the slot is populated, `none` otherwise. -/
theorem cellAt_map_id {β : Type} (terrain : Grid) (zsr : List ℚ) (F : Nat → β)
    (i j k : Nat) (hi : i < terrain.nx - 1) (hj : j < terrain.ny - 1) :
    (cellAt terrain zsr i j k).map (fun c => F c.id)
      = if k + 1 < z_count terrain zsr i j
        then some (F (terrain.nx * terrain.ny * k + terrain.ny * i + j)) else none := by
  rw [cellAt]
  by_cases h : k + 1 < z_count terrain zsr i j
  · rw [if_pos ⟨hi, hj, h⟩, if_pos h]
    rfl
  · rw [if_neg (by tauto), if_neg h]
    rfl

/-- The id list contributed by column (i,j), for any k-range covering the
populated layers: the provisional ids of layers `0 … z_count-2`, through
`F`. -/
theorem inner_ids {β : Type} (terrain : Grid) (zsr : List ℚ) (F : Nat → β)
    (i j K : Nat) (hi : i < terrain.nx - 1) (hj : j < terrain.ny - 1)
    (hK : z_count terrain zsr i j - 1 ≤ K) :
    (List.range K).filterMap (fun k => (cellAt terrain zsr i j k).map (fun c => F c.id))
      = (List.range (z_count terrain zsr i j - 1)).map
          (fun k => F (terrain.nx * terrain.ny * k + terrain.ny * i + j)) := by
  have hzc : 1 ≤ z_count terrain zsr i j := Nat.le_add_left 1 _
  rw [List.filterMap_congr (fun k _ => cellAt_map_id terrain zsr F i j k hi hj)]
  rw [filterMap_range_of_none _ (z_count terrain zsr i j - 1) K hK
    (fun k hk => by rw [if_neg (by omega)])]
  have hcong : ∀ k,
      (if k + 1 < z_count terrain zsr i j
        then some (F (terrain.nx * terrain.ny * k + terrain.ny * i + j)) else none)
      = (if k < z_count terrain zsr i j - 1
        then some (F (terrain.nx * terrain.ny * k + terrain.ny * i + j)) else none) := by
    intro k
    by_cases h : k + 1 < z_count terrain zsr i j
    · rw [if_pos h, if_pos (by omega)]
    · rw [if_neg h, if_neg (by omega)]
  rw [List.filterMap_congr (fun k _ => hcong k)]
  rw [filterMap_range_if, Nat.min_self]

/-- `takeWhile` never lengthens a list. -/
theorem takeWhile_length_le {α : Type} (p : α → Bool) :
    ∀ l : List α, (l.takeWhile p).length ≤ l.length := by
  intro l
  induction l with
  | nil => simp
  | cons a l ih =>
    rw [List.takeWhile_cons]
    by_cases h : p a
    · simp only [h, if_true, List.length_cons]
      omega
    · simp [h]

/-- A successful `naive_mesh` certifies that every processed column avoided
the two panics. -/
theorem naive_mesh_colsOk (terrain : Grid) (zs : List ℚ) (m : Mesh)
    (h : naive_mesh terrain zs = some m) : colsOk terrain zs.reverse = true := by
  by_contra hc
  rw [Bool.not_eq_true] at hc
  simp [naive_mesh, hc] at h

/-- The cell list of a successful `naive_mesh`, unfolded. -/
theorem naive_mesh_cells (terrain : Grid) (zs : List ℚ) (m : Mesh)
    (h : naive_mesh terrain zs = some m) :
    m.cells = (List.range terrain.nx).flatMap (fun i =>
      (List.range terrain.ny).flatMap (fun j =>
        (List.range zs.length).filterMap (fun k =>
          (cellAtWalled terrain zs.reverse i j k).map
            (fun c => { c with id := new_idx (prov_ids terrain zs.reverse) c.id })))) := by
  have hok := naive_mesh_colsOk terrain zs m h
  rw [naive_mesh] at h
  rw [if_pos hok] at h
  injection h with h2
  rw [← h2]

/-- The enumeration list of provisional ids, written canonically: for every
processed column the ids `(nx·ny)·k + ny·i + j` of its populated layers
`k < z_count − 1`, in (i, j, k)-lexicographic order. -/
theorem prov_ids_eq (terrain : Grid) (zsr : List ℚ) :
    prov_ids terrain zsr
      = (List.range (terrain.nx - 1)).flatMap (fun i =>
          (List.range (terrain.ny - 1)).flatMap (fun j =>
            (List.range (z_count terrain zsr i j - 1)).map
              (fun k => terrain.nx * terrain.ny * k + terrain.ny * i + j))) := by
  rw [prov_ids]
  apply List.flatMap_congr
  intro i hi
  apply List.flatMap_congr
  intro j hj
  exact inner_ids terrain zsr (fun n => n) i j _ (List.mem_range.mp hi)
    (List.mem_range.mp hj) (by omega)

/-- The compacted id list of a successful mesh is the provisional id list
pushed through the remap. -/
theorem naive_mesh_ids (terrain : Grid) (zs : List ℚ) (m : Mesh)
    (h : naive_mesh terrain zs = some m) :
    m.cells.map Cell.id
      = (prov_ids terrain zs.reverse).map (new_idx (prov_ids terrain zs.reverse)) := by
  have hok := naive_mesh_colsOk terrain zs m h
  have hspec := colsOk_spec terrain zs.reverse hok
  rw [naive_mesh_cells terrain zs m h]
  -- Push the id projection through flatMap/filterMap; the wall-building and
  -- reindex record updates leave only `new_idx ids ∘ provisional id`.
  have hstep1 : ((List.range terrain.nx).flatMap (fun i =>
      (List.range terrain.ny).flatMap (fun j =>
        (List.range zs.length).filterMap (fun k =>
          (cellAtWalled terrain zs.reverse i j k).map
            (fun c => { c with id := new_idx (prov_ids terrain zs.reverse) c.id }))))).map Cell.id
      = (List.range terrain.nx).flatMap (fun i =>
          (List.range terrain.ny).flatMap (fun j =>
            (List.range zs.length).filterMap (fun k =>
              (cellAt terrain zs.reverse i j k).map
                (fun c => new_idx (prov_ids terrain zs.reverse) c.id)))) := by
    rw [List.map_flatMap]
    apply List.flatMap_congr
    intro i _
    rw [List.map_flatMap]
    apply List.flatMap_congr
    intro j _
    rw [List.map_filterMap]
    apply List.filterMap_congr
    intro k _
    rw [cellAtWalled, Option.map_map, Option.map_map]
    rfl
  rw [hstep1]
  -- Truncate the unpopulated border columns (i ≥ nx−1, j ≥ ny−1).
  have hstep2 : (List.range terrain.nx).flatMap (fun i =>
      (List.range terrain.ny).flatMap (fun j =>
        (List.range zs.length).filterMap (fun k =>
          (cellAt terrain zs.reverse i j k).map
            (fun c => new_idx (prov_ids terrain zs.reverse) c.id))))
      = (List.range (terrain.nx - 1)).flatMap (fun i =>
          (List.range (terrain.ny - 1)).flatMap (fun j =>
            (List.range zs.length).filterMap (fun k =>
              (cellAt terrain zs.reverse i j k).map
                (fun c => new_idx (prov_ids terrain zs.reverse) c.id)))) := by
    rw [flatMap_range_of_nil _ (terrain.nx - 1) terrain.nx (by omega) (fun i hi => by
      rw [List.flatMap_eq_nil_iff]
      intro j _
      rw [List.filterMap_eq_nil_iff]
      intro k _
      rw [cellAt, if_neg (by omega)]
      rfl)]
    apply List.flatMap_congr
    intro i hi
    rw [flatMap_range_of_nil _ (terrain.ny - 1) terrain.ny (by omega) (fun j hj => by
      rw [List.filterMap_eq_nil_iff]
      intro k _
      rw [cellAt, if_neg (by omega)]
      rfl)]
  rw [hstep2]
  -- Collapse each column's filterMap to the map over its populated layers.
  have hstep3 : (List.range (terrain.nx - 1)).flatMap (fun i =>
      (List.range (terrain.ny - 1)).flatMap (fun j =>
        (List.range zs.length).filterMap (fun k =>
          (cellAt terrain zs.reverse i j k).map
            (fun c => new_idx (prov_ids terrain zs.reverse) c.id))))
      = (List.range (terrain.nx - 1)).flatMap (fun i =>
          (List.range (terrain.ny - 1)).flatMap (fun j =>
            (List.range (z_count terrain zs.reverse i j - 1)).map
              (fun k => new_idx (prov_ids terrain zs.reverse)
                (terrain.nx * terrain.ny * k + terrain.ny * i + j)))) := by
    apply List.flatMap_congr
    intro i hi
    apply List.flatMap_congr
    intro j hj
    have ht := takeWhile_length_le
      (fun z => decide (minHeight terrain i j ≤ z)) zs.reverse
    exact inner_ids terrain zs.reverse _ i j zs.length (List.mem_range.mp hi)
      (List.mem_range.mp hj)
      (by
        have : z_count terrain zs.reverse i j - 1 = takenCount terrain zs.reverse i j := by
          rw [z_count]
          omega
        rw [this, takenCount]
        rw [List.length_reverse] at ht
        exact ht)
  rw [hstep3]
  -- The right-hand side is the same canonical list, mapped.
  rw [prov_ids_eq terrain zs.reverse, List.map_flatMap]
  apply List.flatMap_congr
  intro i _
  rw [List.map_flatMap]
  apply List.flatMap_congr
  intro j _
  rw [List.map_map]
  rfl

/-- The provisional ids of a panic-free build are pairwise distinct. -/
theorem prov_ids_nodup (terrain : Grid) (zsr : List ℚ) :
    (prov_ids terrain zsr).Nodup := by
  rw [prov_ids_eq terrain zsr]
  have hbound : ∀ i j : Nat, i < terrain.nx - 1 → j < terrain.ny - 1 →
      terrain.ny * i + j < terrain.nx * terrain.ny := by
    intro i j hi hj
    calc terrain.ny * i + j < terrain.ny * i + terrain.ny := by omega
    _ = terrain.ny * (i + 1) := by ring
    _ ≤ terrain.ny * (terrain.nx - 1) := Nat.mul_le_mul_left _ (by omega)
    _ ≤ terrain.ny * terrain.nx := Nat.mul_le_mul_left _ (by omega)
    _ = terrain.nx * terrain.ny := Nat.mul_comm _ _
  rw [List.nodup_flatMap]
  constructor
  · intro i hi
    rw [List.nodup_flatMap]
    constructor
    · intro j hj
      apply List.Nodup.map _ (List.nodup_range _)
      intro k k' hkk
      have hb : 0 < terrain.nx * terrain.ny := by
        have := hbound i j (List.mem_range.mp hi) (List.mem_range.mp hj)
        omega
      have hkk2 : terrain.nx * terrain.ny * k + terrain.ny * i + j
          = terrain.nx * terrain.ny * k' + terrain.ny * i + j := hkk
      have : terrain.nx * terrain.ny * k = terrain.nx * terrain.ny * k' := by omega
      exact Nat.eq_of_mul_eq_mul_left hb this
    · rw [List.pairwise_iff_getElem]
      intro j j' hj hj' hjj a ha ha'
      simp only [List.getElem_range] at ha ha'
      simp only [List.length_range] at hj hj'
      rw [List.mem_map] at ha ha'
      obtain ⟨k, hk, hak⟩ := ha
      obtain ⟨k', hk', hak'⟩ := ha'
      have hi' := List.mem_range.mp hi
      have hak2 : terrain.nx * terrain.ny * k + terrain.ny * i + j = a := hak
      have hak2' : terrain.nx * terrain.ny * k' + terrain.ny * i + j' = a := hak'
      have hu := decomp_unique (terrain.nx * terrain.ny) k (terrain.ny * i + j)
        k' (terrain.ny * i + j') (hbound i j hi' hj) (hbound i j' hi' hj')
        (by omega)
      have := decomp_unique terrain.ny i j i j' (by omega) (by omega) hu.2
      omega
  · rw [List.pairwise_iff_getElem]
    intro i i' hi hi' hii a ha ha'
    simp only [List.getElem_range] at ha ha'
    simp only [List.length_range] at hi hi'
    rw [List.mem_flatMap] at ha ha'
    obtain ⟨j, hj, haj⟩ := ha
    obtain ⟨j', hj', haj'⟩ := ha'
    rw [List.mem_map] at haj haj'
    obtain ⟨k, hk, hak⟩ := haj
    obtain ⟨k', hk', hak'⟩ := haj'
    have hj := List.mem_range.mp hj
    have hj' := List.mem_range.mp hj'
    have hak2 : terrain.nx * terrain.ny * k + terrain.ny * i + j = a := hak
    have hak2' : terrain.nx * terrain.ny * k' + terrain.ny * i' + j' = a := hak'
    have hu := decomp_unique (terrain.nx * terrain.ny) k (terrain.ny * i + j)
      k' (terrain.ny * i' + j') (hbound i j hi hj) (hbound i' j' hi' hj')
      (by omega)
    have := decomp_unique terrain.ny i j i' j' (by omega) (by omega) hu.2
    omega

/-- Claim C4: for every mesh returned by `naive_mesh` with `N` cells, the
cell ids are pairwise distinct and are exactly the naturals below `N` —
the compaction remap assigns positions `0 … N−1` in enumeration order to
the distinct provisional ids, and the collection pass visits the populated
slots in the same (i, j, k)-lexicographic order. -/
theorem claim_C4 (terrain : Grid) (zs : List ℚ) (m : Mesh)
    (h : naive_mesh terrain zs = some m) :
    (m.cells.map Cell.id).Nodup ∧
      (∀ n, n ∈ m.cells.map Cell.id ↔ n < m.cells.length) := by
  have hids := naive_mesh_ids terrain zs m h
  have hnd := prov_ids_nodup terrain zs.reverse
  have hrange : (prov_ids terrain zs.reverse).map (new_idx (prov_ids terrain zs.reverse))
      = List.range (prov_ids terrain zs.reverse).length := by
    apply List.ext_getElem
    · simp
    · intro n h1 h2
      rw [List.getElem_map, List.getElem_range, new_idx]
      have h1' : n < (prov_ids terrain zs.reverse).length := by
        simpa using h1
      have hidx : List.indexOf (prov_ids terrain zs.reverse)[n]
          (prov_ids terrain zs.reverse) = n :=
        List.indexOf_getElem hnd n h1'
      simp only [hidx]
      rw [if_neg (by omega)]
  have hlen : m.cells.length = (prov_ids terrain zs.reverse).length := by
    have hl := congrArg List.length hids
    simpa using hl
  constructor
  · rw [hids, hrange]
    exact List.nodup_range _
  · intro n
    rw [hids, hrange, List.mem_range, hlen]

/-- Witness for C4: a concrete successful build (flat grid at height 1,
levels [0, 1, 2]) whose cell-id list is duplicate-free and covers exactly
the naturals below the cell count. -/
theorem claim_C4_witness :
    naive_mesh (flatGrid 1) [0, 1, 2]
        = some ((naive_mesh (flatGrid 1) [0, 1, 2]).get (by decide)) ∧
      ((((naive_mesh (flatGrid 1) [0, 1, 2]).get (by decide)).cells.map Cell.id).Nodup ∧
        (∀ n, n ∈ ((naive_mesh (flatGrid 1) [0, 1, 2]).get (by decide)).cells.map Cell.id ↔
          n < ((naive_mesh (flatGrid 1) [0, 1, 2]).get (by decide)).cells.length)) :=
  ⟨(Option.some_get _).symm,
    claim_C4 (flatGrid 1) [0, 1, 2] _ (Option.some_get _).symm⟩

/-! ## Flat-terrain support lemmas (towards the amended C6) -/

/-- Counting `k < L` over `range n` gives `min L n`. -/
theorem countP_range_lt (L n : Nat) :
    (List.range n).countP (fun k => decide (k < L)) = min L n := by
  induction n with
  | zero => simp
  | succ n ih =>
    rw [List.range_succ, List.countP_append, ih, List.countP_cons, List.countP_nil]
    by_cases h : n < L
    · rw [if_pos (by simpa using h)]
      omega
    · rw [if_neg (by simpa using h)]
      omega

/-- Over flat terrain at height `h` with levels `z0 :: z1 :: tl` ascending,
`z0 < h ≤ z1`, every column's take_while run has length `(z1 :: tl).length`:
the reversed list starts with the levels above the terrain and stops at
`z0`. -/
theorem takenCount_flat (terrain : Grid) (h z0 z1 : ℚ) (tl : List ℚ)
    (hflat : ∀ a b, terrain.z a b = h)
    (hsort : (z0 :: z1 :: tl).Sorted (fun a b => a < b))
    (hz0 : z0 < h) (hz1 : h ≤ z1) :
    ∀ i j, takenCount terrain (z0 :: z1 :: tl).reverse i j = (z1 :: tl).length := by
  intro i j
  have hmin : minHeight terrain i j = h := by
    simp only [minHeight, hflat, min_self]
  rw [takenCount, hmin, List.reverse_cons, List.takeWhile_append]
  have hall : ∀ x ∈ (z1 :: tl).reverse, decide (h ≤ x) = true := by
    intro x hx
    rw [List.mem_reverse] at hx
    rcases List.mem_cons.mp hx with hx1 | hxtl
    · subst hx1
      simpa using hz1
    · have h12 := (List.pairwise_cons.mp hsort).2
      have := (List.pairwise_cons.mp h12).1 x hxtl
      simp only [decide_eq_true_eq]
      exact le_of_lt (lt_of_le_of_lt hz1 this)
  have hself : List.takeWhile (fun z => decide (h ≤ z)) (z1 :: tl).reverse
      = (z1 :: tl).reverse := List.takeWhile_eq_self_iff.mpr hall
  rw [if_pos (by rw [hself])]
  have hz0f : List.takeWhile (fun z => decide (h ≤ z)) [z0] = [] := by
    rw [List.takeWhile_cons, if_neg (by simpa using not_le.mpr hz0)]
  rw [hz0f, List.append_nil, List.length_reverse]

/-- Claim C6, amended: for a constant elevation `h` and ascending distinct
levels `z0 :: z1 :: tl` (so `L = (z1 :: tl).length ≥ 1` and `L+1` levels in
all) with `z0 < h ≤ z1`, `naive_mesh` succeeds and every column contains
exactly `L = levels.len() − 1` cells. (Without `z0 < h ≤ z1` this fails —
see the counterexample — so the amendment adds exactly that proviso.) -/
theorem claim_C6 (terrain : Grid) (h z0 z1 : ℚ) (tl : List ℚ)
    (hflat : ∀ a b, terrain.z a b = h)
    (hsort : (z0 :: z1 :: tl).Sorted (fun a b => a < b))
    (hz0 : z0 < h) (hz1 : h ≤ z1) :
    (naive_mesh terrain (z0 :: z1 :: tl)).isSome = true ∧
      ∀ i j, i < terrain.nx - 1 → j < terrain.ny - 1 →
        (List.range (z0 :: z1 :: tl).length).countP
            (fun k => (cellAt terrain (z0 :: z1 :: tl).reverse i j k).isSome)
          = (z0 :: z1 :: tl).length - 1 := by
  have hT := takenCount_flat terrain h z0 z1 tl hflat hsort hz0 hz1
  have hok : colsOk terrain (z0 :: z1 :: tl).reverse = true := by
    rw [colsOk, List.all_eq_true]
    intro i _
    rw [List.all_eq_true]
    intro j _
    rw [colOk, hT i j]
    simp only [List.length_reverse, List.length_cons]
    simp
  constructor
  · rw [naive_mesh, if_pos hok]
    rfl
  · intro i j hi hj
    have hcell : ∀ k, (cellAt terrain (z0 :: z1 :: tl).reverse i j k).isSome
        = decide (k < (z1 :: tl).length) := by
      intro k
      rw [cellAt, z_count, hT i j]
      by_cases hk : k < (z1 :: tl).length
      · rw [if_pos ⟨hi, hj, by omega⟩]
        simp only [Option.isSome_some]
        symm
        simpa using hk
      · rw [if_neg (by omega)]
        simp only [Option.isSome_none]
        symm
        simpa using hk
    rw [List.countP_congr (fun k _ => by rw [hcell k])]
    rw [countP_range_lt]
    simp only [List.length_cons]
    omega

/-- Witness for the amended C6: flat terrain at height 2, levels
[1, 2, 3, 5] (`L = 3`, `z0 = 1 < 2 ≤ z1 = 2`): the build succeeds and the
single column carries exactly 3 cells. -/
theorem claim_C6_witness :
    ((1 : ℚ) < 2 ∧ (2 : ℚ) ≤ 2) ∧
    (naive_mesh (flatGrid 2) [1, 2, 3, 5]).isSome = true ∧
    (List.range 4).countP
        (fun k => (cellAt (flatGrid 2) ([1, 2, 3, 5] : List ℚ).reverse 0 0 k).isSome)
      = 3 := by
  have hc := claim_C6 (flatGrid 2) 2 1 2 [3, 5] (fun a b => rfl) (by decide)
    (by decide) (by decide)
  exact ⟨⟨by decide, by decide⟩, hc.1, hc.2 0 0 (by decide) (by decide)⟩

/-- `getD` of a reversed list reads from the mirrored index. -/
theorem getD_reverse (l : List ℚ) (k : Nat) (hk : k < l.length) :
    l.reverse.getD k 0 = l.getD (l.length - 1 - k) 0 := by
  rw [List.getD_eq_getElem _ _ (by simpa using hk), List.getElem_reverse,
    List.getD_eq_getElem _ _ (by omega)]

/-- Claim C7, amended: `naive_mesh` REVERSES the input level list (it does
not sort it), so when the input list is ascending — the case the code's
comment assumes — the layers are processed from highest to lowest: the
cell built at layer `k` has its four upper vertices at the input level of
index `nz−1−k` and its four lower vertices at index `nz−2−k`, the lower
strictly below the upper. For a non-ascending input this ordering fails
and permuted inputs yield different meshes (see the counterexample). -/
theorem claim_C7 (terrain : Grid) (zs : List ℚ) (i j k : Nat)
    (hsort : zs.Sorted (fun a b => a < b)) (hk : k + 1 < zs.length) :
    ((mkCell terrain zs.reverse i j k).vertices.map Vector.z
      = [zs.getD (zs.length - 2 - k) 0, zs.getD (zs.length - 2 - k) 0,
         zs.getD (zs.length - 1 - k) 0, zs.getD (zs.length - 1 - k) 0,
         zs.getD (zs.length - 2 - k) 0, zs.getD (zs.length - 2 - k) 0,
         zs.getD (zs.length - 1 - k) 0, zs.getD (zs.length - 1 - k) 0]) ∧
    zs.getD (zs.length - 2 - k) 0 < zs.getD (zs.length - 1 - k) 0 := by
  have h1 : zs.reverse.getD k 0 = zs.getD (zs.length - 1 - k) 0 :=
    getD_reverse zs k (by omega)
  have h2 : zs.reverse.getD (k + 1) 0 = zs.getD (zs.length - 2 - k) 0 := by
    rw [getD_reverse zs (k + 1) (by omega)]
    congr 1
    omega
  have ha : zs.length - 2 - k < zs.length := by omega
  have hb : zs.length - 1 - k < zs.length := by omega
  constructor
  · show [zs.reverse.getD (k + 1) 0, zs.reverse.getD (k + 1) 0,
        zs.reverse.getD k 0, zs.reverse.getD k 0,
        zs.reverse.getD (k + 1) 0, zs.reverse.getD (k + 1) 0,
        zs.reverse.getD k 0, zs.reverse.getD k 0] = _
    rw [h1, h2]
  · rw [List.getD_eq_getElem _ _ ha, List.getD_eq_getElem _ _ hb]
    have hlt := List.Sorted.rel_get_of_lt hsort
      (a := ⟨zs.length - 2 - k, ha⟩) (b := ⟨zs.length - 1 - k, hb⟩)
      (by rw [Fin.mk_lt_mk]; omega)
    simpa [List.get_eq_getElem] using hlt

/-- Witness for the amended C7 at levels [0, 1, 4] and layer k = 0: the
top cell spans index 2 (level 4, upper) and index 1 (level 1, lower). -/
theorem claim_C7_witness :
    (mkCell (flatGrid 0) ([0, 1, 4] : List ℚ).reverse 0 0 0).vertices.map Vector.z
        = [([0, 1, 4] : List ℚ).getD 1 0, ([0, 1, 4] : List ℚ).getD 1 0,
           ([0, 1, 4] : List ℚ).getD 2 0, ([0, 1, 4] : List ℚ).getD 2 0,
           ([0, 1, 4] : List ℚ).getD 1 0, ([0, 1, 4] : List ℚ).getD 1 0,
           ([0, 1, 4] : List ℚ).getD 2 0, ([0, 1, 4] : List ℚ).getD 2 0] ∧
    ([0, 1, 4] : List ℚ).getD 1 0 < ([0, 1, 4] : List ℚ).getD 2 0 :=
  claim_C7 (flatGrid 0) [0, 1, 4] 0 0 0 (by decide) (by decide)

end CFS
